import Mathlib

/-!
# finfinack/ha: filter, convert and refresh pipeline

A shallow embedding of `src/ha.go` (with the record types of `src/data` and
`src/configuration`) and the properties of its three functions
`filterEntities`, `convertEntities` and `updateHAStatus`.

Conventions of the embedding

* A Go `string` is a list of characters.  Every string the program handles comes
  out of `json.Unmarshal`, which only produces valid UTF-8, and on valid UTF-8
  the byte-wise order of Go's `<` is the lexicographic order of the code points.
* A pointer `*T` is an `Option T`; `none` is the nil pointer and dereferencing it
  ends the run in `Outcome.panic`.
* A slice that may be nil is an `Option (List T)`; `none` is the nil slice.
* Functions of the Go standard library whose bodies are not part of the
  repository (`regexp`, `strings.ToLower`, `strconv.ParseFloat`,
  `json.Unmarshal`) are fields of the structure `Lib`; the HTTP exchange of one
  refresh cycle is a value of `Fetch`; the cache is an abstract state with its
  `Set` operation passed as a function.
-/

namespace HA

/-! ## Data model -/

/-- Go `string`. -/
abbrev GoString := List Char

/-- Go `error` values of the library calls, identified by their message. -/
abbrev Error := GoString

/-- A `float32`, identified by its IEEE-754 bit pattern. -/
abbrev Float32 := Nat

/-- Go type `data.HAAttributes`. -/
structure HAAttributes where
  ID : GoString
  FriendlyName : GoString
  DeviceClass : GoString
  UnitOfMeasurement : GoString
  Icon : GoString
  deriving DecidableEq, Repr

/-- Go type `data.HAContext`. -/
structure HAContext where
  ID : GoString
  ParentID : GoString
  UserID : GoString
  deriving DecidableEq, Repr

/-- Go type `data.HAEntity`. -/
structure HAEntity where
  ID : GoString
  State : GoString
  Attributes : HAAttributes
  LastChanged : GoString
  LastUpdated : GoString
  Context : HAContext
  deriving DecidableEq, Repr

/-- Go type `data.M5Room`. -/
structure M5Room where
  Name : GoString
  Temperature : Float32
  deriving DecidableEq, Repr

/-- Go type `data.M5Data`; `Rooms` is a slice that is nil (`none`) until the first `append`. -/
structure M5Data where
  LastUpdated : Int
  Rooms : Option (List M5Room)
  deriving DecidableEq, Repr

/-- Go type `configuration.Config`. -/
structure Config where
  HAAuthToken : GoString
  HAStatusURL : GoString
  IncludeEntities : List GoString
  ExcludeEntities : List GoString
  deriving DecidableEq, Repr

/-- How a run of Go code ends: by a run-time panic or by returning a value. -/
inductive Outcome (α : Type) where
  | panic : Outcome α
  | ret : α → Outcome α
  deriving DecidableEq, Repr

/-- The standard-library functions the program calls. -/
structure Lib where
  /-- Go function `regexp.Compile`: an error for a malformed pattern, else the compiled
  expression, given by its (unanchored) `MatchString`. -/
  regexpCompile : GoString → Except Error (GoString → Bool)
  /-- Go function `strings.ToLower`. -/
  stringsToLower : GoString → GoString
  /-- Go call `strconv.ParseFloat(s, 32)` followed by the conversion `float32(.)`. -/
  strconvParseFloat32 : GoString → Except Error Float32
  /-- Go call `json.Unmarshal(body, &haEntities)` with `haEntities []*data.HAEntity`;
  a JSON `null` element decodes to a nil pointer. -/
  jsonUnmarshal : GoString → Except Error (List (Option HAEntity))

/-- The constant `deviceClassTemperature`. -/
def deviceClassTemperature : GoString := "temperature".toList

/-! ## Library functions with a short documented body -/

/-- Go function `regexp.MatchString(pattern, s)`: compile, then match. -/
def regexpMatchString (lib : Lib) (pattern s : GoString) : Except Error Bool :=
  match lib.regexpCompile pattern with
  | .error err => .error err
  | .ok re => .ok (re s)

/-- Go function `strings.HasSuffix`: `len(s) >= len(suffix) && s[len(s)-len(suffix):] == suffix` -/
def hasSuffix (s suffix : GoString) : Bool :=
  decide (suffix.length ≤ s.length) && s.drop (s.length - suffix.length) == suffix

/-- Go function `strings.TrimSuffix`: `s[:len(s)-len(suffix)]` when `s` has the suffix, else `s`. -/
def trimSuffix (s suffix : GoString) : GoString :=
  if hasSuffix s suffix then s.take (s.length - suffix.length) else s

/-- Go's `<` on strings: lexicographic comparison. -/
def strLess : GoString → GoString → Bool
  | [], [] => false
  | [], _ :: _ => true
  | _ :: _, [] => false
  | a :: as, b :: bs =>
    if a.toNat < b.toNat then true
    else if b.toNat < a.toNat then false
    else strLess as bs

/-- One insertion step of a stable sort: `a` stood before every element of the
sorted list, so it goes in front of the first element that is not less than it. -/
def orderedInsert {α : Type} (less : α → α → Bool) (a : α) : List α → List α
  | [] => [a]
  | b :: l => if less b a then b :: orderedInsert less a l else a :: b :: l

/-- Go function `sort.SliceStable` on the elements of a slice: the sorted arrangement that
keeps equal elements in their original order. -/
def sliceStable {α : Type} (less : α → α → Bool) : List α → List α
  | [] => []
  | a :: l => orderedInsert less a (sliceStable less l)

/-- Go builtin `append(s, x)` on a slice that may be nil; the result is never nil. -/
def sliceAppend {α : Type} : Option (List α) → α → Option (List α)
  | none, x => some [x]
  | some xs, x => some (xs ++ [x])

/-! ## `filterEntities` -/

/-- One of the two inner loops of `filterEntities`:
`for _, f := range patterns { m, err = regexp.MatchString(f, e.ID); ... }`.
The flag starts `false`, a compile error returns, a match breaks.  `e.ID` is
evaluated in every iteration, so a nil `e` panics as soon as there is a
pattern. -/
def matchLoop (lib : Lib) (e : Option HAEntity) : List GoString → Outcome (Except Error Bool)
  | [] => .ret (.ok false)
  | f :: fs =>
    match e with
    | none => .panic
    | some ent =>
      match regexpMatchString lib f ent.ID with
      | .error err => .ret (.error err)
      | .ok true => .ret (.ok true)
      | .ok false => matchLoop lib e fs

/-- The outer loop of `filterEntities`, with the slice `out` built so far. -/
def filterLoop (lib : Lib) (includes excludes : List GoString) :
    List (Option HAEntity) → List (Option HAEntity) → Outcome (Except Error (List (Option HAEntity)))
  | [], out => .ret (.ok out)
  | e :: rest, out =>
    match matchLoop lib e includes with
    | .panic => .panic
    | .ret (.error err) => .ret (.error err)
    | .ret (.ok incl) =>
      match matchLoop lib e excludes with
      | .panic => .panic
      | .ret (.error err) => .ret (.error err)
      | .ret (.ok excl) =>
        filterLoop lib includes excludes rest (if incl && !excl then out ++ [e] else out)

/-- Go function `filterEntities(in, includes, excludes)`.  `.error err` is the return
`(nil, err)`, `.ok out` the return `(out, nil)`. -/
def filterEntities (lib : Lib) (input : List (Option HAEntity)) (includes excludes : List GoString) :
    Outcome (Except Error (List (Option HAEntity))) :=
  filterLoop lib includes excludes input []

/-! ## `convertEntities` -/

/-- The loop of `convertEntities`, with `out.Rooms` built so far. -/
def convertLoop (lib : Lib) : List (Option HAEntity) → Option (List M5Room) → Outcome (Option (List M5Room))
  | [], rooms => .ret rooms
  | none :: _, _ => .panic
  | some e :: rest, rooms =>
    if lib.stringsToLower e.Attributes.DeviceClass != deviceClassTemperature then
      convertLoop lib rest rooms
    else
      match lib.strconvParseFloat32 e.State with
      | .error _ => convertLoop lib rest rooms
      | .ok temp =>
        let name := e.Attributes.FriendlyName
        let name := trimSuffix name " Temperature".toList
        let name := trimSuffix name " temperature".toList
        convertLoop lib rest (sliceAppend rooms { Name := name, Temperature := temp })

/-- The comparison handed to `sort.SliceStable`: `out.Rooms[i].Name < out.Rooms[j].Name`. -/
def roomLess (a b : M5Room) : Bool := strLess a.Name b.Name

/-- Go function `convertEntities(in)`; `now` is `time.Now().Unix()`.  The returned error is
always nil, so `.ok out` is the return `(out, nil)`. -/
def convertEntities (lib : Lib) (now : Int) (input : List (Option HAEntity)) :
    Outcome (Except Error M5Data) :=
  match convertLoop lib input none with
  | .panic => .panic
  | .ret rooms => .ret (.ok { LastUpdated := now, Rooms := rooms.map (sliceStable roomLess) })

/-! ## `updateHAStatus` -/

/-- What the HTTP exchange of one refresh cycle does. -/
inductive Fetch where
  /-- the call `http.NewRequest` fails -/
  | newRequestError (err : Error)
  /-- the call `http.DefaultClient.Do` fails -/
  | doError (err : Error)
  /-- a response arrived: its status code and what `io.ReadAll(resp.Body)` gives -/
  | response (statusCode : Nat) (readAll : Except Error GoString)

/-- The errors `updateHAStatus` returns, one per `fmt.Errorf` of its body. -/
inductive UpdateError where
  | unableToCreateRequest (err : Error)
  | unableToMakeRequest (err : Error)
  | unexpectedHTTPStatus (statusCode : Nat)
  | unableToReadResponseBody (err : Error)
  | unableToParseJSON (err : Error)
  | unableToFilter (err : Error)
  deriving DecidableEq, Repr

/-- The constant `http.StatusOK`. -/
def statusOK : Nat := 200

/-- The loop `for _, e := range filteredEntities { cache.Set(e.ID, e) }`. -/
def storeLoop {σ : Type} (cacheSet : σ → GoString → HAEntity → σ) :
    List (Option HAEntity) → σ → Outcome σ
  | [], cache => .ret cache
  | none :: _, _ => .panic
  | some e :: rest, cache => storeLoop cacheSet rest (cacheSet cache e.ID e)

/-- From `json.Unmarshal` on: decode, filter, store. -/
def decodeFilterStore {σ : Type} (lib : Lib) (cacheSet : σ → GoString → HAEntity → σ)
    (config : Config) (respBody : GoString) (cache : σ) : Outcome (σ × Option UpdateError) :=
  match lib.jsonUnmarshal respBody with
  | .error err => .ret (cache, some (.unableToParseJSON err))
  | .ok haEntities =>
    match filterEntities lib haEntities config.IncludeEntities config.ExcludeEntities with
    | .panic => .panic
    | .ret (.error err) => .ret (cache, some (.unableToFilter err))
    | .ret (.ok filteredEntities) =>
      match storeLoop cacheSet filteredEntities cache with
      | .panic => .panic
      | .ret cache' => .ret (cache', none)

/-- Go function `updateHAStatus(config, cache)`: the cache after the call and the returned
error (`none` is nil). -/
def updateHAStatus {σ : Type} (lib : Lib) (cacheSet : σ → GoString → HAEntity → σ)
    (fetch : Fetch) (config : Config) (cache : σ) : Outcome (σ × Option UpdateError) :=
  match fetch with
  | .newRequestError err => .ret (cache, some (.unableToCreateRequest err))
  | .doError err => .ret (cache, some (.unableToMakeRequest err))
  | .response statusCode readAll =>
    if statusCode != statusOK then .ret (cache, some (.unexpectedHTTPStatus statusCode))
    else
      match readAll with
      | .error err => .ret (cache, some (.unableToReadResponseBody err))
      | .ok respBody => decodeFilterStore lib cacheSet config respBody cache

/-! ## A concrete library instance for evaluating the model

A fragment of the standard library on which the model can be run: it answers
like Go on the inputs listed with each function and rejects every other input. -/

/-- Characters that stand for themselves in a regular expression. -/
def isLiteralChar (c : Char) : Bool := c.isAlphanum || c == '_'

/-- Whether `p` occurs in `s` as a contiguous block. -/
def containsBlock (p : GoString) : GoString → Bool
  | [] => p.isEmpty
  | c :: s => p.isPrefixOf (c :: s) || containsBlock p s

/-- Go's `regexp.Compile` on patterns of literal characters only: such a pattern
matches the strings that contain it.  Every other pattern is an error of this
fragment; of these only `(` is used below, which `regexp.Compile` rejects as
well (missing closing parenthesis). -/
def demoCompile (p : GoString) : Except Error (GoString → Bool) :=
  if p.all isLiteralChar then .ok (containsBlock p) else .error "error parsing regexp".toList

/-- Go's `strings.ToLower` on ASCII strings. -/
def demoToLower (s : GoString) : GoString := s.map Char.toLower

/-- Go's `strconv.ParseFloat(s, 32)` on three inputs: `21.5` and `19` parse to
the floats with bit patterns `0x41AC0000` and `0x41980000`, `unknown` does not
parse; every other input is an error of this fragment. -/
def demoParseFloat32 (s : GoString) : Except Error Float32 :=
  if s = "21.5".toList then .ok 0x41AC0000
  else if s = "19".toList then .ok 0x41980000
  else .error "invalid syntax".toList

/-- An entity with the given id, state, device class and friendly name. -/
def mkEntity (id state deviceClass friendlyName : String) : HAEntity :=
  { ID := id.toList, State := state.toList,
    Attributes := { ID := [], FriendlyName := friendlyName.toList,
                    DeviceClass := deviceClass.toList, UnitOfMeasurement := [], Icon := [] },
    LastChanged := [], LastUpdated := [],
    Context := { ID := [], ParentID := [], UserID := [] } }

/-- Go's `json.Unmarshal` into `[]*data.HAEntity` on two bodies: `[]` decodes to
the empty slice and `[null]` to a slice holding one nil pointer; every other
body is an error of this fragment. -/
def demoUnmarshal (body : GoString) : Except Error (List (Option HAEntity)) :=
  if body = "[]".toList then .ok []
  else if body = "[null]".toList then .ok [none]
  else .error "invalid character".toList

/-- The library fragment. -/
def demoLib : Lib :=
  { regexpCompile := demoCompile, stringsToLower := demoToLower,
    strconvParseFloat32 := demoParseFloat32, jsonUnmarshal := demoUnmarshal }

/-- A cache that records its `Set` calls, latest first. -/
def logSet (cache : List (GoString × HAEntity)) (key : GoString) (value : HAEntity) :
    List (GoString × HAEntity) :=
  (key, value) :: cache

/-! ## Vocabulary of the statements -/

/-- The pattern `f` compiles as a regular expression. -/
def Compiles (lib : Lib) (f : GoString) : Prop := ∃ re, lib.regexpCompile f = .ok re

/-- The pattern `f` fails to compile as a regular expression. -/
def Malformed (lib : Lib) (f : GoString) : Prop := ∃ err, lib.regexpCompile f = .error err

/-- The string `s` matches at least one pattern of `ps`. -/
def matchesSome (lib : Lib) (ps : List GoString) (s : GoString) : Bool :=
  ps.any fun f =>
    match lib.regexpCompile f with
    | .ok re => re s
    | .error _ => false

/-- An entity is eligible: its ID matches a pattern of `includes` and none of `excludes`. -/
def eligible (lib : Lib) (includes excludes : List GoString) (e : HAEntity) : Bool :=
  matchesSome lib includes e.ID && !matchesSome lib excludes e.ID

/-- Evaluation on `s` reaches a malformed pattern of `ps`: one that is preceded
in `ps` only by patterns that compile and do not match `s`. -/
def ReachesMalformed (lib : Lib) (ps : List GoString) (s : GoString) : Prop :=
  ∃ pre f post, ps = pre ++ f :: post ∧ Malformed lib f ∧
    ∀ g ∈ pre, ∃ re, lib.regexpCompile g = .ok re ∧ re s = false

/-- The elements of a slice that may be nil. -/
def elems {α : Type} : Option (List α) → List α
  | none => []
  | some l => l

/-- The slice that results from appending the elements of `l`, one by one, to
the nil slice: nil when there is nothing to append. -/
def toSlice {α : Type} : List α → Option (List α)
  | [] => none
  | a :: l => some (a :: l)

/-- An entity yields a room: its device class is `temperature` up to letter
case and its state parses as a 32-bit float. -/
def YieldsRoom (lib : Lib) (e : HAEntity) : Prop :=
  lib.stringsToLower e.Attributes.DeviceClass = "temperature".toList ∧
    ∃ temp, lib.strconvParseFloat32 e.State = .ok temp

/-- The room an entity yields, if it yields one. -/
def roomOf (lib : Lib) (e : HAEntity) : Option M5Room :=
  if lib.stringsToLower e.Attributes.DeviceClass = "temperature".toList then
    match lib.strconvParseFloat32 e.State with
    | .ok temp =>
      some { Name := trimSuffix (trimSuffix e.Attributes.FriendlyName " Temperature".toList)
                       " temperature".toList,
             Temperature := temp }
    | .error _ => none
  else none

/-- The string `s` ends with `suffix`. -/
def EndsWith (s suffix : GoString) : Prop := ∃ base, s = base ++ suffix

/-- The display name of a friendly name, by cases on its ending: a trailing
`" Temperature"` is removed and after it a trailing `" temperature"` of what is
left; a trailing `" temperature"` is removed; a friendly name with neither
ending is kept. -/
def IsDisplayName (friendlyName name : GoString) : Prop :=
  (∀ base, friendlyName = base ++ " Temperature".toList →
      (∀ base', base = base' ++ " temperature".toList → name = base') ∧
      (¬ EndsWith base " temperature".toList → name = base))
  ∧ (∀ base, friendlyName = base ++ " temperature".toList → name = base)
  ∧ (¬ EndsWith friendlyName " Temperature".toList →
      ¬ EndsWith friendlyName " temperature".toList → name = friendlyName)

/-- Ascending order of a sequence of rooms by name: no room is followed, at any
distance, by a room with a smaller name. -/
def SortedByName (rooms : List M5Room) : Prop :=
  rooms.Pairwise fun a b => strLess b.Name a.Name = false

/-- The rooms of a sequence that carry the name `n`, in their order. -/
def roomsNamed (n : GoString) (rooms : List M5Room) : List M5Room :=
  rooms.filter fun r => decide (r.Name = n)

/-! ## Lemmas on strings and sorting -/

theorem hasSuffix_iff (s suffix : GoString) : hasSuffix s suffix = true ↔ EndsWith s suffix := by
  unfold hasSuffix EndsWith
  constructor
  · intro h
    simp only [Bool.and_eq_true, decide_eq_true_eq, beq_iff_eq] at h
    refine ⟨s.take (s.length - suffix.length), ?_⟩
    conv_lhs => rw [← List.take_append_drop (s.length - suffix.length) s]
    rw [h.2]
  · rintro ⟨base, rfl⟩
    simp

theorem trimSuffix_append (base suffix : GoString) : trimSuffix (base ++ suffix) suffix = base := by
  have h : hasSuffix (base ++ suffix) suffix = true := (hasSuffix_iff _ _).2 ⟨base, rfl⟩
  simp [trimSuffix, h]

theorem trimSuffix_of_not_endsWith (s suffix : GoString) (h : ¬ EndsWith s suffix) :
    trimSuffix s suffix = s := by
  have h' : hasSuffix s suffix = false := by
    cases hs : hasSuffix s suffix
    · rfl
    · exact absurd ((hasSuffix_iff _ _).1 hs) h
  simp [trimSuffix, h']

theorem isDisplayName_trimSuffix (friendlyName : GoString) :
    IsDisplayName friendlyName
      (trimSuffix (trimSuffix friendlyName " Temperature".toList) " temperature".toList) := by
  refine ⟨?_, ?_, ?_⟩
  · rintro base rfl
    rw [trimSuffix_append]
    refine ⟨?_, fun h => trimSuffix_of_not_endsWith _ _ h⟩
    rintro base' rfl
    exact trimSuffix_append _ _
  · rintro base rfl
    have hne : ¬ EndsWith (base ++ " temperature".toList) " Temperature".toList := by
      rintro ⟨b, hb⟩
      have := (List.append_inj' hb (by decide)).2
      revert this
      decide
    rw [trimSuffix_of_not_endsWith _ _ hne, trimSuffix_append]
  · intro h1 h2
    rw [trimSuffix_of_not_endsWith _ _ h1, trimSuffix_of_not_endsWith _ _ h2]

theorem char_toNat_injective (a b : Char) (h : a.toNat = b.toNat) : a = b := by
  rw [← Char.ofNat_toNat a, ← Char.ofNat_toNat b, h]

theorem strLess_irrefl (a : GoString) : strLess a a = false := by
  induction a with
  | nil => rfl
  | cons c cs ih => simp [strLess, ih]

theorem strLess_asymm (a b : GoString) (h : strLess a b = true) : strLess b a = false := by
  induction a generalizing b with
  | nil => cases b <;> simp [strLess] at h ⊢
  | cons c cs ih =>
    cases b with
    | nil => simp [strLess] at h
    | cons d ds =>
      simp only [strLess] at h ⊢
      by_cases h1 : c.toNat < d.toNat
      · have h2 : ¬ d.toNat < c.toNat := by omega
        simp [h1, h2]
      · by_cases h2 : d.toNat < c.toNat
        · simp [h1, h2] at h
        · simp only [h1, h2, if_false] at h ⊢
          exact ih ds h

theorem strLess_trans (a b c : GoString) (hab : strLess a b = true) (hbc : strLess b c = true) :
    strLess a c = true := by
  induction a generalizing b c with
  | nil =>
    cases b with
    | nil => simp [strLess] at hab
    | cons d ds =>
      cases c with
      | nil => simp [strLess] at hbc
      | cons e es => simp [strLess]
  | cons x xs ih =>
    cases b with
    | nil => simp [strLess] at hab
    | cons d ds =>
      cases c with
      | nil => simp [strLess] at hbc
      | cons e es =>
        simp only [strLess] at hab hbc ⊢
        by_cases h1 : x.toNat < d.toNat
        · by_cases h2 : d.toNat < e.toNat
          · have : x.toNat < e.toNat := by omega
            simp [this]
          · by_cases h3 : e.toNat < d.toNat
            · simp [h2, h3] at hbc
            · have : x.toNat < e.toNat := by omega
              simp [this]
        · by_cases h2 : d.toNat < x.toNat
          · simp [h1, h2] at hab
          · simp only [h1, h2, if_false] at hab
            by_cases h3 : d.toNat < e.toNat
            · have : x.toNat < e.toNat := by omega
              simp [this]
            · by_cases h4 : e.toNat < d.toNat
              · simp [h3, h4] at hbc
              · simp only [h3, h4, if_false] at hbc
                have h5 : ¬ x.toNat < e.toNat := by omega
                have h6 : ¬ e.toNat < x.toNat := by omega
                simp only [h5, h6, if_false]
                exact ih ds es hab hbc

theorem strLess_total (a b : GoString) (hab : strLess a b = false) (hba : strLess b a = false) :
    a = b := by
  induction a generalizing b with
  | nil => cases b <;> simp [strLess] at hab ⊢
  | cons c cs ih =>
    cases b with
    | nil => simp [strLess] at hba
    | cons d ds =>
      simp only [strLess] at hab hba
      by_cases h1 : c.toNat < d.toNat
      · simp [h1] at hab
      · by_cases h2 : d.toNat < c.toNat
        · simp [h2] at hba
        · simp only [h1, h2, if_false] at hab hba
          have hcd : c = d := char_toNat_injective c d (by omega)
          rw [hcd, ih ds hab hba]

theorem strLess_negTrans (a b c : GoString) (hba : strLess b a = false) (hcb : strLess c b = false) :
    strLess c a = false := by
  cases hca : strLess c a
  · rfl
  · cases hbc : strLess b c
    · have hbc' : b = c := strLess_total b c hbc hcb
      rw [hbc', hca] at hba
      cases hba
    · rw [strLess_trans b c a hbc hca] at hba
      cases hba

/-! ## Lemmas on `filterEntities` -/

theorem matchLoop_of_compiles (lib : Lib) (e : HAEntity) (ps : List GoString)
    (h : ∀ f ∈ ps, Compiles lib f) :
    matchLoop lib (some e) ps = .ret (.ok (matchesSome lib ps e.ID)) := by
  induction ps with
  | nil => rfl
  | cons f fs ih =>
    obtain ⟨re, hre⟩ := h f (List.mem_cons_self f fs)
    have ih' := ih fun g hg => h g (List.mem_cons_of_mem f hg)
    cases hm : re e.ID <;>
      simp [matchLoop, regexpMatchString, matchesSome, hre, hm] at ih' ⊢
    simpa [matchesSome] using ih'

theorem filterLoop_of_compiles (lib : Lib) (includes excludes : List GoString)
    (hI : ∀ f ∈ includes, Compiles lib f) (hX : ∀ f ∈ excludes, Compiles lib f)
    (es : List HAEntity) (out : List (Option HAEntity)) :
    filterLoop lib includes excludes (es.map some) out
      = .ret (.ok (out ++ (es.filter (eligible lib includes excludes)).map some)) := by
  induction es generalizing out with
  | nil => simp [filterLoop]
  | cons e rest ih =>
    simp only [List.map_cons, filterLoop, matchLoop_of_compiles lib e includes hI,
      matchLoop_of_compiles lib e excludes hX, ih]
    by_cases he : eligible lib includes excludes e = true
    · have he' := he
      simp only [eligible] at he'
      simp [he, he', List.filter_cons]
    · have he' := he
      simp only [eligible] at he'
      simp [he, he', List.filter_cons]

theorem matchLoop_some_cases (lib : Lib) (e : HAEntity) (ps : List GoString) :
    (∃ err, matchLoop lib (some e) ps = .ret (.error err) ∧ ReachesMalformed lib ps e.ID) ∨
    (∃ b, matchLoop lib (some e) ps = .ret (.ok b) ∧ ¬ ReachesMalformed lib ps e.ID) := by
  induction ps with
  | nil =>
    refine Or.inr ⟨false, rfl, ?_⟩
    rintro ⟨pre, f, post, h, -⟩
    simp at h
  | cons f fs ih =>
    cases hc : lib.regexpCompile f with
    | error err =>
      refine Or.inl ⟨err, by simp [matchLoop, regexpMatchString, hc], [], f, fs, rfl, ⟨err, hc⟩, ?_⟩
      simp
    | ok re =>
      cases hm : re e.ID with
      | true =>
        refine Or.inr ⟨true, by simp [matchLoop, regexpMatchString, hc, hm], ?_⟩
        rintro ⟨pre, g, post, h, ⟨err, hg⟩, hpre⟩
        cases pre with
        | nil =>
          simp only [List.nil_append, List.cons.injEq] at h
          rw [← h.1, hc] at hg
          cases hg
        | cons p pre =>
          simp only [List.cons_append, List.cons.injEq] at h
          obtain ⟨re', h1, h2⟩ := hpre p (List.mem_cons_self p pre)
          rw [← h.1, hc] at h1
          cases h1
          rw [hm] at h2
          cases h2
      | false =>
        have hstep : matchLoop lib (some e) (f :: fs) = matchLoop lib (some e) fs := by
          simp [matchLoop, regexpMatchString, hc, hm]
        rcases ih with ⟨err, h1, pre, g, post, h2, h3, h4⟩ | ⟨b, h1, h2⟩
        · refine Or.inl ⟨err, hstep.trans h1, f :: pre, g, post, by simp [h2], h3, ?_⟩
          intro p hp
          rcases List.mem_cons.1 hp with rfl | hp
          · exact ⟨re, hc, hm⟩
          · exact h4 p hp
        · refine Or.inr ⟨b, hstep.trans h1, ?_⟩
          rintro ⟨pre, g, post, h, ⟨err, hg⟩, hpre⟩
          cases pre with
          | nil =>
            simp only [List.nil_append, List.cons.injEq] at h
            rw [← h.1, hc] at hg
            cases hg
          | cons p pre =>
            simp only [List.cons_append, List.cons.injEq] at h
            exact h2 ⟨pre, g, post, h.2, ⟨err, hg⟩, fun q hq => hpre q (List.mem_cons_of_mem p hq)⟩

theorem filterLoop_some_cases (lib : Lib) (includes excludes : List GoString)
    (es : List HAEntity) (out : List (Option HAEntity)) :
    (∃ err, filterLoop lib includes excludes (es.map some) out = .ret (.error err) ∧
      ∃ e ∈ es, ReachesMalformed lib includes e.ID ∨ ReachesMalformed lib excludes e.ID) ∨
    (∃ res, filterLoop lib includes excludes (es.map some) out = .ret (.ok res) ∧
      ¬ ∃ e ∈ es, ReachesMalformed lib includes e.ID ∨ ReachesMalformed lib excludes e.ID) := by
  induction es generalizing out with
  | nil => exact Or.inr ⟨out, rfl, by simp⟩
  | cons e rest ih =>
    rcases matchLoop_some_cases lib e includes with ⟨err, h1, h2⟩ | ⟨incl, h1, h2⟩
    · exact Or.inl ⟨err, by simp [filterLoop, h1], e, List.mem_cons_self e rest, Or.inl h2⟩
    · rcases matchLoop_some_cases lib e excludes with ⟨err, h3, h4⟩ | ⟨excl, h3, h4⟩
      · exact Or.inl ⟨err, by simp [filterLoop, h1, h3], e, List.mem_cons_self e rest, Or.inr h4⟩
      · have hstep : filterLoop lib includes excludes ((e :: rest).map some) out
            = filterLoop lib includes excludes (rest.map some)
                (if incl && !excl then out ++ [some e] else out) := by
          simp [filterLoop, h1, h3]
        rcases ih (if incl && !excl then out ++ [some e] else out) with
          ⟨err, h5, e', he', h6⟩ | ⟨res, h5, h6⟩
        · exact Or.inl ⟨err, hstep.trans h5, e', List.mem_cons_of_mem e he', h6⟩
        · refine Or.inr ⟨res, hstep.trans h5, ?_⟩
          rintro ⟨e', he', h7⟩
          rcases List.mem_cons.1 he' with rfl | he'
          · rcases h7 with h7 | h7
            · exact h2 h7
            · exact h4 h7
          · exact h6 ⟨e', he', h7⟩

/-! ## Lemmas on `convertEntities` -/

theorem orderedInsert_perm {α : Type} (less : α → α → Bool) (a : α) (l : List α) :
    (orderedInsert less a l).Perm (a :: l) := by
  induction l with
  | nil => exact List.Perm.refl _
  | cons b l ih =>
    simp only [orderedInsert]
    split
    · exact ((List.Perm.cons b ih).trans (List.Perm.swap a b l))
    · exact List.Perm.refl _

theorem sliceStable_perm {α : Type} (less : α → α → Bool) (l : List α) :
    (sliceStable less l).Perm l := by
  induction l with
  | nil => exact List.Perm.refl _
  | cons a l ih => exact (orderedInsert_perm less a _).trans (List.Perm.cons a ih)

theorem orderedInsert_pairwise {α : Type} (less : α → α → Bool)
    (hasymm : ∀ x y, less x y = true → less y x = false)
    (hneg : ∀ x y z, less y x = false → less z y = false → less z x = false)
    (a : α) (l : List α) (hl : l.Pairwise fun x y => less y x = false) :
    (orderedInsert less a l).Pairwise fun x y => less y x = false := by
  induction l with
  | nil => simp [orderedInsert]
  | cons b l ih =>
    rw [List.pairwise_cons] at hl
    simp only [orderedInsert]
    cases hba : less b a with
    | true =>
      simp only [if_true]
      rw [List.pairwise_cons]
      refine ⟨?_, ih hl.2⟩
      intro c hc
      rcases List.mem_cons.1 ((orderedInsert_perm less a l).mem_iff.1 hc) with rfl | hc
      · exact hasymm _ _ hba
      · exact hl.1 c hc
    | false =>
      simp only [Bool.false_eq_true, if_false]
      rw [List.pairwise_cons, List.pairwise_cons]
      refine ⟨?_, hl⟩
      intro c hc
      rcases List.mem_cons.1 hc with rfl | hc
      · exact hba
      · exact hneg a b c hba (hl.1 c hc)

theorem sliceStable_pairwise {α : Type} (less : α → α → Bool)
    (hasymm : ∀ x y, less x y = true → less y x = false)
    (hneg : ∀ x y z, less y x = false → less z y = false → less z x = false)
    (l : List α) : (sliceStable less l).Pairwise fun x y => less y x = false := by
  induction l with
  | nil => exact List.Pairwise.nil
  | cons a l ih => exact orderedInsert_pairwise less hasymm hneg a _ ih

theorem orderedInsert_filter {α : Type} (less : α → α → Bool) (p : α → Bool)
    (hp : ∀ x y, p x = true → p y = true → less y x = false) (a : α) (l : List α) :
    (orderedInsert less a l).filter p = (a :: l).filter p := by
  induction l with
  | nil => rfl
  | cons b l ih =>
    simp only [orderedInsert]
    cases hba : less b a with
    | false => simp
    | true =>
      simp only [if_true]
      rw [List.filter_cons, ih]
      cases hpa : p a with
      | false => simp [List.filter_cons, hpa]
      | true =>
        cases hpb : p b with
        | false => simp [List.filter_cons, hpa, hpb]
        | true =>
          rw [hp a b hpa hpb] at hba
          cases hba

theorem sliceStable_filter {α : Type} (less : α → α → Bool) (p : α → Bool)
    (hp : ∀ x y, p x = true → p y = true → less y x = false) (l : List α) :
    (sliceStable less l).filter p = l.filter p := by
  induction l with
  | nil => rfl
  | cons a l ih =>
    simp only [sliceStable]
    rw [orderedInsert_filter less p hp, List.filter_cons, List.filter_cons, ih]

theorem eq_of_perm_of_pairwise {α : Type} (r : α → α → Prop) (l₁ l₂ : List α)
    (hperm : l₁.Perm l₂) (h₁ : l₁.Pairwise r) (h₂ : l₂.Pairwise r)
    (hanti : ∀ a ∈ l₁, ∀ b ∈ l₁, r a b → r b a → a = b) : l₁ = l₂ := by
  induction l₁ generalizing l₂ with
  | nil => exact (List.Perm.nil_eq hperm)
  | cons a t₁ ih =>
    cases l₂ with
    | nil => exact absurd hperm.symm (List.nil_perm.not.2 (List.cons_ne_nil a t₁))
    | cons b t₂ =>
      rw [List.pairwise_cons] at h₁ h₂
      have hab : a = b := by
        have ha : a ∈ b :: t₂ := hperm.mem_iff.1 (List.mem_cons_self a t₁)
        have hb : b ∈ a :: t₁ := hperm.mem_iff.2 (List.mem_cons_self b t₂)
        rcases List.mem_cons.1 ha with h | ha'
        · exact h
        · rcases List.mem_cons.1 hb with h | hb'
          · exact h.symm
          · exact hanti a (List.mem_cons_self a t₁) b hb (h₁.1 b hb') (h₂.1 a ha')
      subst hab
      rw [ih t₂ (List.Perm.cons_inv hperm) h₁.2 h₂.2
        fun x hx y hy => hanti x (List.mem_cons_of_mem a hx) y (List.mem_cons_of_mem a hy)]

theorem roomLess_asymm (x y : M5Room) (h : roomLess x y = true) : roomLess y x = false :=
  strLess_asymm x.Name y.Name h

theorem roomLess_negTrans (x y z : M5Room) (h₁ : roomLess y x = false)
    (h₂ : roomLess z y = false) : roomLess z x = false :=
  strLess_negTrans x.Name y.Name z.Name h₁ h₂

theorem foldl_sliceAppend_some {α : Type} (l xs : List α) :
    l.foldl sliceAppend (some xs) = some (xs ++ l) := by
  induction l generalizing xs with
  | nil => simp
  | cons a l ih => simp [List.foldl_cons, sliceAppend, ih]

theorem foldl_sliceAppend_none {α : Type} (l : List α) :
    l.foldl sliceAppend none = toSlice l := by
  cases l with
  | nil => rfl
  | cons a l => simp [List.foldl_cons, sliceAppend, foldl_sliceAppend_some, toSlice]

theorem elems_toSlice {α : Type} (l : List α) : elems (toSlice l) = l := by
  cases l <;> rfl

theorem temperature_eq_constant : "temperature".toList = deviceClassTemperature := rfl

theorem roomOf_def (lib : Lib) (e : HAEntity) :
    roomOf lib e =
      if lib.stringsToLower e.Attributes.DeviceClass = deviceClassTemperature then
        match lib.strconvParseFloat32 e.State with
        | .ok temp =>
          some { Name := trimSuffix (trimSuffix e.Attributes.FriendlyName " Temperature".toList)
                           " temperature".toList,
                 Temperature := temp }
        | .error _ => none
      else none := rfl

theorem yieldsRoom_def (lib : Lib) (e : HAEntity) :
    YieldsRoom lib e ↔
      (lib.stringsToLower e.Attributes.DeviceClass = deviceClassTemperature ∧
        ∃ temp, lib.strconvParseFloat32 e.State = .ok temp) := Iff.rfl

theorem convertLoop_map_some (lib : Lib) (es : List HAEntity) (rooms : Option (List M5Room)) :
    convertLoop lib (es.map some) rooms
      = .ret ((es.filterMap (roomOf lib)).foldl sliceAppend rooms) := by
  induction es generalizing rooms with
  | nil => rfl
  | cons e rest ih =>
    simp only [List.map_cons, convertLoop]
    by_cases hdc : lib.stringsToLower e.Attributes.DeviceClass = deviceClassTemperature
    · cases hp : lib.strconvParseFloat32 e.State with
      | error err =>
        have hr : roomOf lib e = none := by simp [roomOf_def, hdc, hp]
        simp [hdc, ih, List.filterMap_cons, hr]
      | ok temp =>
        have hr : roomOf lib e = some
            { Name := trimSuffix (trimSuffix e.Attributes.FriendlyName " Temperature".toList)
                " temperature".toList,
              Temperature := temp } := by
          simp [roomOf_def, hdc, hp]
        simp [hdc, ih, List.filterMap_cons, hr]
    · have hr : roomOf lib e = none := by simp [roomOf_def, hdc]
      simp [hdc, ih, List.filterMap_cons, hr]

theorem convertEntities_map_some (lib : Lib) (now : Int) (es : List HAEntity) :
    convertEntities lib now (es.map some)
      = .ret (.ok { LastUpdated := now,
                    Rooms := (toSlice (es.filterMap (roomOf lib))).map (sliceStable roomLess) }) := by
  simp [convertEntities, convertLoop_map_some, foldl_sliceAppend_none]

theorem elems_map_sliceStable (l : List M5Room) :
    elems ((toSlice l).map (sliceStable roomLess)) = sliceStable roomLess l := by
  cases l <;> rfl

theorem roomOf_isSome_iff (lib : Lib) (e : HAEntity) :
    (roomOf lib e).isSome = true ↔ YieldsRoom lib e := by
  rw [roomOf_def, yieldsRoom_def]
  by_cases hdc : lib.stringsToLower e.Attributes.DeviceClass = deviceClassTemperature
  · cases hp : lib.strconvParseFloat32 e.State <;> simp [hdc]
  · simp [hdc]

theorem map_sliceStable_toSlice (l : List M5Room) :
    (toSlice l).map (sliceStable roomLess) = toSlice (sliceStable roomLess l) := by
  cases l with
  | nil => rfl
  | cons a l =>
    have hne : sliceStable roomLess (a :: l) ≠ [] := by
      intro h
      have hp := sliceStable_perm roomLess (a :: l)
      rw [h] at hp
      exact absurd hp (List.nil_perm.not.2 (List.cons_ne_nil a l))
    cases hs : sliceStable roomLess (a :: l) with
    | nil => exact absurd hs hne
    | cons b t => simp [toSlice, hs]

theorem storeLoop_map_some {σ : Type} (cacheSet : σ → GoString → HAEntity → σ)
    (es : List HAEntity) (cache : σ) :
    storeLoop cacheSet (es.map some) cache
      = .ret (es.foldl (fun c e => cacheSet c e.ID e) cache) := by
  induction es generalizing cache with
  | nil => rfl
  | cons e rest ih => simp [storeLoop, ih]

theorem decodeFilterStore_error {σ : Type} (lib : Lib) (cacheSet : σ → GoString → HAEntity → σ)
    (config : Config) (respBody : GoString) (cache cache' : σ) (err : UpdateError)
    (h : decodeFilterStore lib cacheSet config respBody cache = .ret (cache', some err)) :
    cache' = cache := by
  unfold decodeFilterStore at h
  cases hj : lib.jsonUnmarshal respBody with
  | error e =>
    simp only [hj, Outcome.ret.injEq, Prod.mk.injEq] at h
    exact h.1.symm
  | ok haEntities =>
    simp only [hj] at h
    cases hf : filterEntities lib haEntities config.IncludeEntities config.ExcludeEntities with
    | panic => simp [hf] at h
    | ret r =>
      cases r with
      | error e =>
        simp only [hf, Outcome.ret.injEq, Prod.mk.injEq] at h
        exact h.1.symm
      | ok filtered =>
        simp only [hf] at h
        cases hs : storeLoop cacheSet filtered cache with
        | panic => simp [hs] at h
        | ret c => simp [hs] at h

/-! ## Results -/

/-- On a list that holds no nil pointer and with patterns that all compile,
`filterEntities` returns no error and exactly the eligible entities of its input
(those whose ID matches at least one include pattern and no exclude pattern), in
the input's order and with the input's multiplicities; with no include pattern
the result is empty, with no exclude pattern nothing is excluded. -/
theorem filterEntities_returns_eligible (lib : Lib) (es : List HAEntity)
    (includes excludes : List GoString)
    (hI : ∀ f ∈ includes, Compiles lib f) (hX : ∀ f ∈ excludes, Compiles lib f) :
    filterEntities lib (es.map some) includes excludes
        = .ret (.ok ((es.filter fun e =>
            matchesSome lib includes e.ID && !matchesSome lib excludes e.ID).map some))
      ∧ (includes = [] → filterEntities lib (es.map some) includes excludes = .ret (.ok []))
      ∧ (excludes = [] → filterEntities lib (es.map some) includes excludes
          = .ret (.ok ((es.filter fun e => matchesSome lib includes e.ID).map some))) := by
  have main := filterLoop_of_compiles lib includes excludes hI hX es []
  simp only [List.nil_append] at main
  refine ⟨main, ?_, ?_⟩
  · intro h
    subst h
    simp only [filterEntities, main]
    simp [eligible, matchesSome]
  · intro h
    subst h
    have hfun : eligible lib includes [] = fun e => matchesSome lib includes e.ID := by
      funext e
      simp [eligible, matchesSome]
    simp only [filterEntities, main, hfun]

/-- Of a kitchen sensor, a light and a second copy of the sensor, the patterns
`sensor` (include) and `bath` (exclude) keep the two sensors, in order. -/
theorem filterEntities_returns_eligible_witness :
    (∀ f ∈ ["sensor".toList], Compiles demoLib f) ∧ (∀ f ∈ ["bath".toList], Compiles demoLib f) ∧
    filterEntities demoLib
        ([mkEntity "sensor_kitchen" "21.5" "temperature" "Kitchen Temperature",
          mkEntity "light_hall" "on" "" "Hall",
          mkEntity "sensor_kitchen" "21.5" "temperature" "Kitchen Temperature"].map some)
        ["sensor".toList] ["bath".toList]
      = .ret (.ok [some (mkEntity "sensor_kitchen" "21.5" "temperature" "Kitchen Temperature"),
                   some (mkEntity "sensor_kitchen" "21.5" "temperature" "Kitchen Temperature")]) := by
  have hI : ∀ f ∈ ["sensor".toList], Compiles demoLib f := by
    intro f hf
    rw [List.mem_singleton.1 hf]
    exact ⟨_, rfl⟩
  have hX : ∀ f ∈ ["bath".toList], Compiles demoLib f := by
    intro f hf
    rw [List.mem_singleton.1 hf]
    exact ⟨_, rfl⟩
  refine ⟨hI, hX, ?_⟩
  rw [(filterEntities_returns_eligible demoLib _ _ _ hI hX).1]
  rfl

/-- C1, the failing runs: on an entity list that holds a nil pointer first,
`filterEntities` ends in a panic as soon as there is an include pattern, or no
include pattern and an exclude pattern, whether or not the patterns compile; so
for the list with one nil pointer and the compiling patterns `sensor` and `bath`
it neither returns the (empty) eligible sublist nor returns at all. -/
theorem filterEntities_nil_entity_panics (lib : Lib) (rest : List (Option HAEntity))
    (f : GoString) (fs xs : List GoString) :
    filterEntities lib (none :: rest) (f :: fs) xs = .panic ∧
    filterEntities lib (none :: rest) [] (f :: fs) = .panic ∧
    Compiles demoLib "sensor".toList ∧ Compiles demoLib "bath".toList ∧
    filterEntities demoLib [none] ["sensor".toList] [] = .panic ∧
    filterEntities demoLib [none] [] ["bath".toList] = .panic :=
  ⟨rfl, rfl, ⟨_, rfl⟩, ⟨_, rfl⟩, rfl, rfl⟩

/-- C2 fails as stated: with the malformed pattern `(` in the include list,
`filterEntities` returns an empty result and no error on the empty entity list,
returns the entity and no error when the pattern `sensor`, standing before
`(`, already matches it, and on a list that holds a nil pointer ends in a panic
instead of returning an error. -/
theorem filterEntities_malformed_without_error :
    Malformed demoLib "(".toList ∧
    filterEntities demoLib [] ["(".toList] [] = .ret (.ok []) ∧
    filterEntities demoLib [some (mkEntity "sensor_kitchen" "21.5" "temperature" "Kitchen")]
        ["sensor".toList, "(".toList] []
      = .ret (.ok [some (mkEntity "sensor_kitchen" "21.5" "temperature" "Kitchen")]) ∧
    filterEntities demoLib
        [none, some (mkEntity "sensor_kitchen" "21.5" "temperature" "Kitchen")] ["(".toList] []
      = .panic :=
  ⟨⟨_, rfl⟩, rfl, rfl, rfl⟩

/-- C2, amended: on an entity list that holds no nil pointer, `filterEntities`
returns an error (and with it no entities) exactly when, for some entity of the
input, the evaluation reaches a malformed pattern, that is, a malformed pattern
of the include list is preceded there by no pattern matching the entity's ID, or
a malformed pattern of the exclude list is preceded there by no pattern matching
it; in every other case, the empty input among them, it returns a result and no
error. -/
theorem filterEntities_error_iff_reaches_malformed (lib : Lib) (es : List HAEntity)
    (includes excludes : List GoString) :
    ((∃ err, filterEntities lib (es.map some) includes excludes = .ret (.error err)) ↔
      ∃ e ∈ es, ReachesMalformed lib includes e.ID ∨ ReachesMalformed lib excludes e.ID)
    ∧ ((∃ res, filterEntities lib (es.map some) includes excludes = .ret (.ok res)) ↔
      ¬ ∃ e ∈ es, ReachesMalformed lib includes e.ID ∨ ReachesMalformed lib excludes e.ID) := by
  unfold filterEntities
  rcases filterLoop_some_cases lib includes excludes es [] with ⟨err, h1, h2⟩ | ⟨res, h1, h2⟩
  · refine ⟨⟨fun _ => h2, fun _ => ⟨err, h1⟩⟩, ⟨?_, fun h => absurd h2 h⟩⟩
    rintro ⟨res, h⟩
    rw [h1] at h
    cases h
  · refine ⟨⟨?_, fun h => absurd h h2⟩, ⟨fun _ => h2, fun _ => ⟨res, h1⟩⟩⟩
    rintro ⟨err, h⟩
    rw [h1] at h
    cases h

/-- C3 fails as stated: the friendly name `Kitchen temperature Temperature` ends
with `" Temperature"`, yet the room is named `Kitchen`, not the friendly name
minus that one suffix (`Kitchen temperature`): both suffixes are removed. -/
theorem convertEntities_removes_two_suffixes :
    "Kitchen temperature Temperature".toList
        = "Kitchen temperature".toList ++ " Temperature".toList ∧
    convertEntities demoLib 0
        [some (mkEntity "sensor_kitchen" "21.5" "temperature" "Kitchen temperature Temperature")]
      = .ret (.ok { LastUpdated := 0,
                    Rooms := some [{ Name := "Kitchen".toList, Temperature := 0x41AC0000 }] }) ∧
    "Kitchen".toList ≠ "Kitchen temperature".toList :=
  ⟨rfl, rfl, by decide⟩

/-- C3, amended: `convertEntities` returns, and the rooms it returns are those
of the entities that yield one, each with the entity's parsed temperature and
the display name of its friendly name: a trailing `" Temperature"` is removed
and after it a trailing `" temperature"` of what is left, a trailing
`" temperature"` is removed, and a friendly name with neither ending is used
unmodified; the display name of `Kitchen Temperature` is `Kitchen`. -/
theorem convertEntities_room_names (lib : Lib) (now : Int) (es : List HAEntity) :
    (∃ out, convertEntities lib now (es.map some) = .ret (.ok out) ∧
      (∀ e ∈ es, lib.stringsToLower e.Attributes.DeviceClass = "temperature".toList →
        ∀ temp, lib.strconvParseFloat32 e.State = .ok temp →
          ∃ r ∈ elems out.Rooms, r.Temperature = temp ∧
            IsDisplayName e.Attributes.FriendlyName r.Name) ∧
      (∀ r ∈ elems out.Rooms, ∃ e ∈ es, YieldsRoom lib e ∧
        lib.strconvParseFloat32 e.State = .ok r.Temperature ∧
          IsDisplayName e.Attributes.FriendlyName r.Name)) ∧
    (∀ name, IsDisplayName "Kitchen Temperature".toList name ↔ name = "Kitchen".toList) := by
  have hkitchen : ¬ EndsWith "Kitchen".toList " temperature".toList := by
    intro h
    have h' := (hasSuffix_iff _ _).2 h
    revert h'
    decide
  refine ⟨⟨_, convertEntities_map_some lib now es, ?_, ?_⟩, fun name =>
    ⟨fun h => (h.1 "Kitchen".toList rfl).2 hkitchen, fun h => ?_⟩⟩
  rotate_right
  · rw [h]
    exact isDisplayName_trimSuffix "Kitchen Temperature".toList
  · intro e he hdc temp hp
    rw [temperature_eq_constant] at hdc
    refine ⟨{ Name := trimSuffix (trimSuffix e.Attributes.FriendlyName " Temperature".toList)
                " temperature".toList, Temperature := temp }, ?_, rfl,
      isDisplayName_trimSuffix _⟩
    rw [elems_map_sliceStable, (sliceStable_perm roomLess _).mem_iff, List.mem_filterMap]
    exact ⟨e, he, by simp [roomOf_def, hdc, hp]⟩
  · intro r hr
    rw [elems_map_sliceStable, (sliceStable_perm roomLess _).mem_iff, List.mem_filterMap] at hr
    obtain ⟨e, he, hroom⟩ := hr
    have hy : YieldsRoom lib e := (roomOf_isSome_iff lib e).1 (by simp [hroom])
    obtain ⟨hdc, temp, hp⟩ := hy
    refine ⟨e, he, ⟨hdc, temp, hp⟩, ?_, ?_⟩
    · rw [temperature_eq_constant] at hdc
      simp only [roomOf_def, hdc, hp, if_true, Option.some.injEq] at hroom
      rw [← hroom, hp]
    · rw [temperature_eq_constant] at hdc
      simp only [roomOf_def, hdc, hp, if_true, Option.some.injEq] at hroom
      rw [← hroom]
      exact isDisplayName_trimSuffix _

/-- C4: `convertEntities` returns without an error, and its rooms are, up to
reordering, exactly one room per input entity that yields a room (lower-cased
device class equal to the string `temperature`, state parsable as a 32-bit
float); every other entity contributes nothing.  Of a kitchen sensor, an attic
sensor of device class `TEMPERATURE`, a humidity sensor and a sensor in state
`unknown`, the report holds the rooms Attic and Kitchen. -/
theorem convertEntities_rooms_perm (lib : Lib) (now : Int) (es : List HAEntity) :
    (∃ out, convertEntities lib now (es.map some) = .ret (.ok out) ∧
      (elems out.Rooms).Perm (es.filterMap (roomOf lib)) ∧
      (∀ e, (roomOf lib e).isSome = true ↔
        (lib.stringsToLower e.Attributes.DeviceClass = "temperature".toList ∧
          ∃ temp, lib.strconvParseFloat32 e.State = .ok temp)) ∧
      (∀ e r, roomOf lib e = some r → lib.strconvParseFloat32 e.State = .ok r.Temperature) ∧
      (elems out.Rooms).length
        = (es.filter fun e => decide (lib.stringsToLower e.Attributes.DeviceClass
              = "temperature".toList) && (lib.strconvParseFloat32 e.State).toBool).length) ∧
    convertEntities demoLib 7
        [some (mkEntity "sensor_kitchen" "21.5" "temperature" "Kitchen Temperature"),
         some (mkEntity "sensor_attic" "19" "TEMPERATURE" "Attic temperature"),
         some (mkEntity "sensor_bath" "19" "humidity" "Bath Humidity"),
         some (mkEntity "sensor_hall" "unknown" "temperature" "Hall Temperature")]
      = .ret (.ok { LastUpdated := 7,
                    Rooms := some [{ Name := "Attic".toList, Temperature := 0x41980000 },
                                   { Name := "Kitchen".toList, Temperature := 0x41AC0000 }] }) := by
  refine ⟨⟨_, convertEntities_map_some lib now es, ?_, fun e => roomOf_isSome_iff lib e, ?_, ?_⟩,
    rfl⟩
  · rw [elems_map_sliceStable]
    exact sliceStable_perm roomLess _
  · intro e r hr
    rw [roomOf_def] at hr
    by_cases hdc : lib.stringsToLower e.Attributes.DeviceClass = deviceClassTemperature
    · cases hp : lib.strconvParseFloat32 e.State with
      | error err => simp [hdc, hp] at hr
      | ok temp =>
        simp only [hdc, hp, if_true, Option.some.injEq] at hr
        rw [← hr]
    · simp [hdc] at hr
  · rw [elems_map_sliceStable, (sliceStable_perm roomLess _).length_eq, temperature_eq_constant]
    induction es with
    | nil => rfl
    | cons e rest ih =>
      by_cases hdc : lib.stringsToLower e.Attributes.DeviceClass = deviceClassTemperature
      · cases hp : lib.strconvParseFloat32 e.State <;>
          simp [List.filterMap_cons, List.filter_cons, roomOf_def, hdc, hp, Except.toBool, ih]
      · simp [List.filterMap_cons, List.filter_cons, roomOf_def, hdc, ih]

/-- C5: the rooms `convertEntities` returns are sorted by name in ascending
order, and the rooms of any one name stand in the order in which their entities
stand in the input; rooms named Bedroom, Attic, Kitchen come out as Attic,
Bedroom, Kitchen. -/
theorem convertEntities_sorted_stable (lib : Lib) (now : Int) (es : List HAEntity) :
    (∃ out, convertEntities lib now (es.map some) = .ret (.ok out) ∧
      SortedByName (elems out.Rooms) ∧
      ∀ n, roomsNamed n (elems out.Rooms) = roomsNamed n (es.filterMap (roomOf lib))) ∧
    ∀ t₁ t₂ t₃ : Float32,
      sliceStable roomLess [{ Name := "Bedroom".toList, Temperature := t₁ },
          { Name := "Attic".toList, Temperature := t₂ },
          { Name := "Kitchen".toList, Temperature := t₃ }]
        = [{ Name := "Attic".toList, Temperature := t₂ },
           { Name := "Bedroom".toList, Temperature := t₁ },
           { Name := "Kitchen".toList, Temperature := t₃ }] := by
  refine ⟨⟨_, convertEntities_map_some lib now es, ?_, ?_⟩, fun _ _ _ => rfl⟩
  · rw [elems_map_sliceStable]
    exact sliceStable_pairwise roomLess roomLess_asymm roomLess_negTrans _
  · intro n
    rw [elems_map_sliceStable]
    refine sliceStable_filter roomLess _ ?_ _
    intro x y hx hy
    have hx' : x.Name = n := by simpa using hx
    have hy' : y.Name = n := by simpa using hy
    simp only [roomLess, hx', hy']
    exact strLess_irrefl n

/-- C6: a refresh cycle in which `updateHAStatus` returns an error leaves the
cache as it was, whatever the cache's `Set` does: no `Set` takes place.  The
cache changes only on the success path, where `Set` is applied once to each
eligible entity, in order. -/
theorem updateHAStatus_error_keeps_cache {σ : Type} (lib : Lib)
    (cacheSet : σ → GoString → HAEntity → σ) (fetch : Fetch) (config : Config) (cache : σ) :
    (∀ cache' err, updateHAStatus lib cacheSet fetch config cache = .ret (cache', some err) →
      cache' = cache) ∧
    (∀ (respBody : GoString) (es : List HAEntity), fetch = .response statusOK (.ok respBody) →
      lib.jsonUnmarshal respBody = .ok (es.map some) →
      (∀ f ∈ config.IncludeEntities, Compiles lib f) →
      (∀ f ∈ config.ExcludeEntities, Compiles lib f) →
      updateHAStatus lib cacheSet fetch config cache
        = .ret (((es.filter (eligible lib config.IncludeEntities config.ExcludeEntities)).foldl
            (fun c e => cacheSet c e.ID e) cache), none)) := by
  constructor
  · intro cache' err h
    unfold updateHAStatus at h
    cases fetch with
    | newRequestError e =>
      simp only [Outcome.ret.injEq, Prod.mk.injEq] at h
      exact h.1.symm
    | doError e =>
      simp only [Outcome.ret.injEq, Prod.mk.injEq] at h
      exact h.1.symm
    | response statusCode readAll =>
      simp only at h
      split at h
      · simp only [Outcome.ret.injEq, Prod.mk.injEq] at h
        exact h.1.symm
      · cases readAll with
        | error e =>
          simp only [Outcome.ret.injEq, Prod.mk.injEq] at h
          exact h.1.symm
        | ok respBody =>
          exact decodeFilterStore_error lib cacheSet config respBody cache cache' err h
  · intro respBody es hfetch hjson hI hX
    subst hfetch
    have hfilter := filterLoop_of_compiles lib config.IncludeEntities config.ExcludeEntities
      hI hX es []
    simp only [List.nil_append] at hfilter
    simp [updateHAStatus, decodeFilterStore, hjson, filterEntities, hfilter, storeLoop_map_some]

/-- C6, at a concrete input: a cycle answered with HTTP 500 returns the error
for an unexpected status and leaves a cache holding one entry as it was. -/
theorem updateHAStatus_error_keeps_cache_witness :
    updateHAStatus demoLib logSet (.response 500 (.ok "Internal Server Error".toList))
        { HAAuthToken := [], HAStatusURL := [], IncludeEntities := ["sensor".toList],
          ExcludeEntities := [] }
        [("sensor_attic".toList, mkEntity "sensor_attic" "19" "temperature" "Attic")]
      = .ret ([("sensor_attic".toList, mkEntity "sensor_attic" "19" "temperature" "Attic")],
              some (.unexpectedHTTPStatus 500)) ∧
    [("sensor_attic".toList, mkEntity "sensor_attic" "19" "temperature" "Attic")]
      = [("sensor_attic".toList, mkEntity "sensor_attic" "19" "temperature" "Attic")] :=
  ⟨rfl, (updateHAStatus_error_keeps_cache demoLib logSet
    (.response 500 (.ok "Internal Server Error".toList))
    { HAAuthToken := [], HAStatusURL := [], IncludeEntities := ["sensor".toList],
      ExcludeEntities := [] } _).1 _ (.unexpectedHTTPStatus 500) rfl⟩

/-- C8, the failing behaviour: when no entity of the input yields a room (the
empty input included), `convertEntities` returns no error and a `Rooms` slice
that is nil, which `encoding/json` writes as `null`, not an empty non-nil slice. -/
theorem convertEntities_no_rooms_nil (lib : Lib) (now : Int) (es : List HAEntity)
    (h : ∀ e ∈ es, ¬ YieldsRoom lib e) :
    convertEntities lib now (es.map some) = .ret (.ok { LastUpdated := now, Rooms := none }) := by
  have hnil : es.filterMap (roomOf lib) = [] := by
    rw [List.filterMap_eq_nil_iff]
    intro e he
    cases hr : roomOf lib e with
    | none => rfl
    | some r => exact absurd ((roomOf_isSome_iff lib e).1 (by simp [hr])) (h e he)
  rw [convertEntities_map_some, hnil]
  rfl

/-- C8, at a concrete input: an entity of device class `temperature` whose state
is `unknown` yields no room, and the report's `Rooms` is nil. -/
theorem convertEntities_no_rooms_nil_witness :
    (∀ e ∈ [mkEntity "sensor_attic" "unknown" "temperature" "Attic Temperature"],
        ¬ YieldsRoom demoLib e) ∧
    convertEntities demoLib 7
        ([mkEntity "sensor_attic" "unknown" "temperature" "Attic Temperature"].map some)
      = .ret (.ok { LastUpdated := 7, Rooms := none }) := by
  have h : ∀ e ∈ [mkEntity "sensor_attic" "unknown" "temperature" "Attic Temperature"],
      ¬ YieldsRoom demoLib e := by
    intro e he
    rw [List.mem_singleton.1 he]
    rintro ⟨-, temp, ht⟩
    have hp : demoLib.strconvParseFloat32
        (mkEntity "sensor_attic" "unknown" "temperature" "Attic Temperature").State
          = .error "invalid syntax".toList := rfl
    rw [hp] at ht
    cases ht
  exact ⟨h, convertEntities_no_rooms_nil demoLib 7 _ h⟩

/-- C10: for two entity lists that are permutations of each other and whose
entities yield rooms of pairwise distinct names, `convertEntities` returns the
same report: the same rooms in the same positions. -/
theorem convertEntities_perm_invariant (lib : Lib) (now : Int) (es₁ es₂ : List HAEntity)
    (hperm : es₁.Perm es₂)
    (hnames : ((es₁.filterMap (roomOf lib)).map fun r => r.Name).Nodup) :
    convertEntities lib now (es₁.map some) = convertEntities lib now (es₂.map some) := by
  have hrooms : (es₁.filterMap (roomOf lib)).Perm (es₂.filterMap (roomOf lib)) :=
    hperm.filterMap _
  have hsorted : sliceStable roomLess (es₁.filterMap (roomOf lib))
      = sliceStable roomLess (es₂.filterMap (roomOf lib)) := by
    refine eq_of_perm_of_pairwise (fun x y => roomLess y x = false) _ _
      (((sliceStable_perm roomLess _).trans hrooms).trans (sliceStable_perm roomLess _).symm)
      (sliceStable_pairwise roomLess roomLess_asymm roomLess_negTrans _)
      (sliceStable_pairwise roomLess roomLess_asymm roomLess_negTrans _) ?_
    intro a ha b hb hab hba
    rw [(sliceStable_perm roomLess _).mem_iff] at ha hb
    exact List.inj_on_of_nodup_map hnames ha hb (strLess_total a.Name b.Name hba hab)
  rw [convertEntities_map_some, convertEntities_map_some, map_sliceStable_toSlice,
    map_sliceStable_toSlice, hsorted]

/-- C10, at a concrete input: the kitchen and attic sensors in either order give
the report with Attic before Kitchen. -/
theorem convertEntities_perm_invariant_witness :
    [mkEntity "sensor_kitchen" "21.5" "temperature" "Kitchen Temperature",
        mkEntity "sensor_attic" "19" "temperature" "Attic temperature"].Perm
      [mkEntity "sensor_attic" "19" "temperature" "Attic temperature",
        mkEntity "sensor_kitchen" "21.5" "temperature" "Kitchen Temperature"] ∧
    convertEntities demoLib 7
        ([mkEntity "sensor_kitchen" "21.5" "temperature" "Kitchen Temperature",
          mkEntity "sensor_attic" "19" "temperature" "Attic temperature"].map some)
      = convertEntities demoLib 7
        ([mkEntity "sensor_attic" "19" "temperature" "Attic temperature",
          mkEntity "sensor_kitchen" "21.5" "temperature" "Kitchen Temperature"].map some) ∧
    convertEntities demoLib 7
        ([mkEntity "sensor_attic" "19" "temperature" "Attic temperature",
          mkEntity "sensor_kitchen" "21.5" "temperature" "Kitchen Temperature"].map some)
      = .ret (.ok { LastUpdated := 7,
                    Rooms := some [{ Name := "Attic".toList, Temperature := 0x41980000 },
                                   { Name := "Kitchen".toList, Temperature := 0x41AC0000 }] }) :=
  ⟨List.Perm.swap _ _ [],
   convertEntities_perm_invariant demoLib 7 _ _ (List.Perm.swap _ _ []) (by decide),
   rfl⟩

/-- C2, amended, at a concrete input: with the kitchen sensor as the only entity
and `(` as the only include pattern, the evaluation reaches the malformed
pattern and `filterEntities` returns an error. -/
theorem filterEntities_error_iff_reaches_malformed_witness :
    ReachesMalformed demoLib ["(".toList]
        (mkEntity "sensor_kitchen" "21.5" "temperature" "Kitchen").ID ∧
    ∃ err, filterEntities demoLib
        ([mkEntity "sensor_kitchen" "21.5" "temperature" "Kitchen"].map some) ["(".toList] []
      = .ret (.error err) := by
  have h : ReachesMalformed demoLib ["(".toList]
      (mkEntity "sensor_kitchen" "21.5" "temperature" "Kitchen").ID :=
    ⟨[], "(".toList, [], rfl, ⟨_, rfl⟩, by simp⟩
  exact ⟨h, (filterEntities_error_iff_reaches_malformed demoLib
    [mkEntity "sensor_kitchen" "21.5" "temperature" "Kitchen"] ["(".toList] []).1.2
      ⟨_, List.mem_singleton_self _, Or.inl h⟩⟩

/-- C9, the failing run: the upstream body `[null]` decodes to one nil entity
pointer, and with the include pattern `sensor` the refresh cycle ends in a
panic (the nil pointer is dereferenced for its ID in `filterEntities`) instead of
returning nil or an error. -/
theorem updateHAStatus_null_entity_panics :
    demoLib.jsonUnmarshal "[null]".toList = .ok [none] ∧
    updateHAStatus demoLib logSet (.response 200 (.ok "[null]".toList))
        { HAAuthToken := [], HAStatusURL := [], IncludeEntities := ["sensor".toList],
          ExcludeEntities := [] } []
      = .panic :=
  ⟨rfl, rfl⟩

end HA
